import Mathlib

/-!
Shallow embedding of the two example applications of this repository,
`src/examples/progress_bar.rs` and `src/examples/select.rs`.

Both examples wire two widgets into a tui-realm `Application`, give focus to
the first one, and drive a `while !model.quit` loop: each iteration polls the
application once (`app.tick(.., PollStrategy::Once)`), marks a redraw when at
least one message was processed, renders if a redraw is pending, and clears
the pending flag.  On loop exit the terminal is restored (leave alternate
screen, disable raw mode, clear screen).

The component framework itself (the `tuirealm` crate and the widget library)
is not part of the given source; wherever one of its operations decides
behaviour it is modelled from the spec and marked as such in the doc comment.
Floating-point payloads are modelled exactly: a positive IEEE binary64 value
is an exact dyadic rational `sig * 2 ^ exp`, and binary64 multiplication is
exact multiplication followed by round-to-nearest, ties-to-even.
-/

namespace TuiRealmDemo

/-- Key codes of `tuirealm::event::Key` used by the examples; `Char` and `Fn`
stand for the remaining codes the wildcard arms of the handlers absorb. -/
inductive Key where
  | Tab
  | Esc
  | Down
  | Up
  | Enter
  | Backspace
  | Left
  | Right
  | Char (c : Char)
  | Fn (n : Nat)
  deriving DecidableEq

/-- Keyboard event: the source patterns match only on `code` and ignore the
modifiers with `..`; the modifiers are kept as an opaque field. -/
structure KeyEvent where
  code : Key
  modifiers : Nat
  deriving DecidableEq

/-- Events of `tuirealm::Event<U>` delivered to `Component::on`. -/
inductive Event (U : Type) where
  | Keyboard (ev : KeyEvent)
  | WindowResize (w h : Nat)
  | FocusGained
  | FocusLost
  | Paste (s : String)
  | Tick
  | User (u : U)
  deriving DecidableEq

/-- Positive finite IEEE binary64 value, represented exactly as the rational
`sig * 2 ^ exp` (sig and exp are not required to be in normal form; only the
denoted value matters). -/
structure PosF64 where
  sig : Nat
  exp : Int
  deriving DecidableEq

/-- Exact rational value denoted by a `PosF64`. -/
def PosF64.val (x : PosF64) : ℚ := (x.sig : ℚ) * (2 : ℚ) ^ x.exp

/-- Number of low bits that must be dropped from `n` to bring it below
`2 ^ 53` (fuel-driven; 128 bits of fuel covers any product of two
53-bit significands). -/
def dropBits : Nat → Nat → Nat
  | 0, _ => 0
  | fuel + 1, n => if n < 2 ^ 53 then 0 else dropBits fuel (n / 2) + 1

/-- Round `n / 2 ^ k` to the nearest integer, ties to even. -/
def roundShift (n : Nat) (k : Nat) : Nat :=
  if k = 0 then n
  else
    let q := n / 2 ^ k
    let r := n % 2 ^ k
    let half := 2 ^ (k - 1)
    if r < half then q
    else if half < r then q + 1
    else if q % 2 = 0 then q else q + 1

/-- IEEE binary64 multiplication of positive finite values: the exact product
of the significands is rounded once to 53 bits, nearest, ties to even
(overflow and subnormals ignored, which is sound for the magnitudes the
examples use). -/
def PosF64.mul (x y : PosF64) : PosF64 :=
  let s := x.sig * y.sig
  let k := dropBits 128 s
  { sig := roundShift s k, exp := x.exp + y.exp + k }

/-- Rust `as usize` applied to a positive finite binary64 value: truncate
toward zero and saturate at `usize::MAX`. -/
def PosF64.asUsize (x : PosF64) : Nat :=
  let t :=
    match x.exp with
    | Int.ofNat k => x.sig * 2 ^ k
    | Int.negSucc k => x.sig / 2 ^ (k + 1)
  min t (2 ^ 64 - 1)

/-- The IEEE binary64 value denoted by the source literal `0.73`: the
binary64 nearest to 73/100 (see the half-ulp bound proved below). -/
def lit073 : PosF64 := { sig := 1643813863990231, exp := -51 }

/-- The IEEE binary64 value denoted by the source literal `100.0` (exact). -/
def lit100 : PosF64 := { sig := 100, exp := 0 }

/-- Rust formatting with width 2 and zero padding, as in the gauge label
format string of the examples: decimal digits of `n`, left-padded with
zeros to at least two characters. -/
def fmtPad2 (n : Nat) : String :=
  let s := toString n
  if s.length < 2 then String.mk (List.replicate (2 - s.length) '0' ++ s.toList) else s

/-- Label computed in `GaugeAlfa::on` and `GaugeBeta::on` for a progress
payload: the zero-padded decimal of `(prog * 100.0) as usize` followed
by a percent sign. -/
def progressLabel (prog : PosF64) : String :=
  fmtPad2 (PosF64.asUsize (prog.mul lit100)) ++ "%"

/-- Messages of progress_bar.rs. -/
inductive Msg where
  | AppClose
  | GaugeAlfaBlur
  | GaugeBetaBlur
  | None
  deriving DecidableEq

/-- Component identifiers of progress_bar.rs. -/
inductive Id where
  | GaugeAlfa
  | GaugeBeta
  deriving DecidableEq

/-- User event of progress_bar.rs: the loader port reports a progress value
(an f64 in the source, modelled as an exact positive binary64 value). -/
inductive UserEvent where
  | Loaded (prog : PosF64)
  deriving DecidableEq

/-- Observable state of the inner `ProgressBar` widget as far as the example
touches it: the `Attribute::Value` payload and the `Attribute::Text` label
(the style properties set in the `Default` impls are inert and omitted). -/
structure ProgressBarState where
  value : PosF64
  text : String
  deriving DecidableEq

/-- Widget state established by `GaugeAlfa::default` / `GaugeBeta::default`:
label "0%" and progress 0.0. -/
def gaugeDefault : ProgressBarState := { value := { sig := 0, exp := 0 }, text := "0%" }

/-- `Component::on` of `GaugeAlfa` (progress_bar.rs): a `Loaded` user event
updates the value and the label and yields `Some(Msg::None)`; Tab yields the
blur message, Esc yields close, everything else yields `Some(Msg::None)`. -/
def GaugeAlfa.on (st : ProgressBarState) :
    Event UserEvent → ProgressBarState × Option Msg
  | Event.User (UserEvent.Loaded prog) =>
      ({ value := prog, text := progressLabel prog }, some Msg.None)
  | Event.Keyboard ⟨Key.Tab, _⟩ => (st, some Msg.GaugeAlfaBlur)
  | Event.Keyboard ⟨Key.Esc, _⟩ => (st, some Msg.AppClose)
  | _ => (st, some Msg.None)

/-- `Component::on` of `GaugeBeta` (progress_bar.rs); identical to
`GaugeAlfa::on` except that Tab yields `Msg::GaugeBetaBlur`. -/
def GaugeBeta.on (st : ProgressBarState) :
    Event UserEvent → ProgressBarState × Option Msg
  | Event.User (UserEvent.Loaded prog) =>
      ({ value := prog, text := progressLabel prog }, some Msg.None)
  | Event.Keyboard ⟨Key.Tab, _⟩ => (st, some Msg.GaugeBetaBlur)
  | Event.Keyboard ⟨Key.Esc, _⟩ => (st, some Msg.AppClose)
  | _ => (st, some Msg.None)

/-- Application model of progress_bar.rs (and, field for field, of select.rs):
the quit flag and the redraw flag.  The `terminal` field of the Rust struct is
a handle to the terminal driver; its operations appear as effects in the loop
model below rather than as data. -/
structure Model where
  quit : Bool
  redraw : Bool
  deriving DecidableEq

/-- `Model::default` (progress_bar.rs and select.rs): quit false, redraw
true; the `TerminalBridge::new().expect(..)` acquisition it also performs is
modelled by the `termAcq` argument of `mainRun` below. -/
def Model.default : Model := { quit := false, redraw := true }

/-- Identifiers mounted by main (progress_bar.rs): both gauges, mounted once
each, never unmounted. -/
def mountedIds : List Id := [Id.GaugeAlfa, Id.GaugeBeta]

/-- View bookkeeping the examples rely on: which identifiers are mounted and
which one holds focus.  Modelled from the spec: the mounting registry and the
focus holder live in the tuirealm framework, which is not part of src/. -/
structure AppView where
  mounted : List Id
  focus : Option Id
  deriving DecidableEq

/-- Modelled from the spec: `View::active` of the tuirealm framework (not in
src/) gives focus to the requested identifier and fails if it is not mounted
(the spec calls focusing an unmounted identifier an unrecoverable programming
error). -/
def AppView.active (v : AppView) (i : Id) : Except String AppView :=
  if i ∈ v.mounted then Except.ok { v with focus := some i } else Except.error "component not mounted"

/-- `Update::update` for `Model` (progress_bar.rs): AppClose sets quit; a
blur message asserts that giving focus to the other gauge succeeds (an
assertion failure is a panic, surfaced as `Except.error`); `Msg::None` does
nothing; the returned follow-up message is always `None`. -/
def Model.update (m : Model) (view : AppView) (msg : Option Msg) :
    Except String (Model × AppView × Option Msg) :=
  match msg.getD Msg.None with
  | Msg.AppClose => Except.ok ({ m with quit := true }, view, none)
  | Msg.GaugeAlfaBlur => (view.active Id.GaugeBeta).map fun v => (m, v, none)
  | Msg.GaugeBetaBlur => (view.active Id.GaugeAlfa).map fun v => (m, v, none)
  | Msg.None => Except.ok (m, view, none)

/-- Combined loop state: the model plus the framework view bookkeeping. -/
structure AppState where
  model : Model
  view : AppView
  deriving DecidableEq

/-- Application state right before the while loop of main (progress_bar.rs):
`Model::default`, both gauges mounted, focus given to `GaugeAlfa`. -/
def initAppState : AppState :=
  { model := Model.default
    view := { mounted := mountedIds, focus := some Id.GaugeAlfa } }

/-- Terminal and rendering effects performed by main (progress_bar.rs).  A
`Render` effect records the draw of `Model::view`: the layout margin, the
ordered list of `Constraint::Length` heights of the vertical layout, and the
components drawn into the chunks. -/
inductive Effect where
  | EnableRawMode
  | EnterAltScreen
  | Render (margin : Nat) (constraints : List Nat) (drawn : List Id)
  | LeaveAltScreen
  | DisableRawMode
  | ClearScreen
  deriving DecidableEq

/-- `Model::view` of progress_bar.rs: one frame draw with a vertical layout
of margin 1 and constraints Length 3, Length 3, Length 1; `GaugeAlfa` is
drawn in chunk 0 and `GaugeBeta` in chunk 1, and the final 1-line chunk is
left as a spacer. -/
def Model.view : Effect := Effect.Render 1 [3, 3, 1] [Id.GaugeAlfa, Id.GaugeBeta]

/-- Outcome of one `app.tick(&mut model, PollStrategy::Once)` call, taken as
the loop's input: `Except.ok msgs` when the tick polled events and produced
the batch `msgs` of messages (possibly empty), `Except.error` for a polling
error.  Modelled from the spec: the event-to-message dispatch inside tick
belongs to the tuirealm framework, which is not part of src/. -/
abbrev TickOutcome := Except String (List Msg)

/-- Modelled from the spec: the part of `Application::tick` (tuirealm
framework, not in src/) that feeds every message produced this tick to
`Update::update`.  The follow-up chain stops after one call per message
because `Model::update` always returns `None`.  A panic inside update
propagates as `Except.error`. -/
def tickProcess (s : AppState) : List Msg → Except String AppState
  | [] => Except.ok s
  | msg :: rest =>
    match Model.update s.model s.view (some msg) with
    | Except.ok (m, v, _) => tickProcess { model := m, view := v } rest
    | Except.error e => Except.error e

/-- Number of messages processed by a tick (the `sz` of
`if let Ok(sz) = app.tick(..)`); a discarded polling error counts zero. -/
def msgCount : TickOutcome → Nat
  | Except.ok msgs => msgs.length
  | Except.error _ => 0

/-- A tick outcome that delivers an application-close message: the tick
succeeded and `Msg::AppClose` is among the messages it processed. -/
def tickCloses (t : TickOutcome) : Prop :=
  ∃ msgs, t = Except.ok msgs ∧ Msg.AppClose ∈ msgs

/-- Tick phase of one iteration of the while loop of main (progress_bar.rs):
`if let Ok(sz) = app.tick(..)` discards an Err outcome entirely; on Ok every
message is processed through update and `model.redraw = true` is set when
`sz > 0`. -/
def pollPhase (s : AppState) : TickOutcome → Except String (AppState × Nat)
  | Except.error _ => Except.ok (s, 0)
  | Except.ok msgs =>
    (tickProcess s msgs).map fun s' =>
      (if msgs.length > 0 then { s' with model := { s'.model with redraw := true } } else s',
        msgs.length)

/-- Redraw phase of one iteration of the while loop of main
(progress_bar.rs): if `model.redraw` is set, draw `Model::view` and clear
the flag. -/
def renderPhase (s : AppState) : AppState × List Effect :=
  if s.model.redraw then
    ({ s with model := { s.model with redraw := false } }, [Model.view])
  else (s, [])

/-- One full iteration of the while loop of main (progress_bar.rs): tick
phase followed by redraw phase, returning the new state and the effects
emitted. -/
def loopStep (s : AppState) (t : TickOutcome) : Except String (AppState × List Effect) :=
  (pollPhase s t).map fun p => renderPhase p.1

/-- State held by the while loop of main before iteration `n`, for the
infinite stream `t` of tick outcomes; once quit is set the loop has exited
and the state stays frozen. -/
def stateAfter (t : Nat → TickOutcome) : Nat → Except String AppState
  | 0 => Except.ok initAppState
  | n + 1 =>
    (stateAfter t n).bind fun s =>
      if s.model.quit then Except.ok s
      else (loopStep s (t n)).map Prod.fst

/-- The while loop of main (progress_bar.rs) over a finite prefix of tick
outcomes: returns the final state, the effects emitted, the number of
iterations executed, and whether the loop exited because quit was set (as
opposed to the prefix running out while the loop was still live). -/
def runLoop : List TickOutcome → AppState → Except String (AppState × List Effect × Nat × Bool)
  | [], s =>
    if s.model.quit then Except.ok (s, [], 0, true) else Except.ok (s, [], 0, false)
  | tk :: rest, s =>
    if s.model.quit then Except.ok (s, [], 0, true)
    else
      (loopStep s tk).bind fun p =>
        (runLoop rest p.1).map fun q =>
          (q.1, p.2 ++ q.2.1, q.2.2.1 + 1, q.2.2.2)

/-- `main` of progress_bar.rs over a finite prefix of tick outcomes.
`termAcq` models the `TerminalBridge::new()` result inside `Model::default`:
an Err makes `expect` panic, aborting before any loop iteration or terminal
effect.  Otherwise raw mode and the alternate screen are entered, the
components are mounted and `GaugeAlfa` focused, the loop runs, and if (and
only if) the loop exited the three terminal-restore calls are performed once
each, in source order, after the loop. -/
def mainRun (termAcq : Except String Unit) (ts : List TickOutcome) :
    Except String (List Effect × Nat × Bool) :=
  match termAcq with
  | Except.error e => Except.error e
  | Except.ok _ =>
    (runLoop ts initAppState).map fun q =>
      (Effect.EnableRawMode :: Effect.EnterAltScreen :: q.2.1 ++
          (if q.2.2.2 then [Effect.LeaveAltScreen, Effect.DisableRawMode, Effect.ClearScreen]
            else []),
        q.2.2.1, q.2.2.2)

/-- Messages of select.rs. -/
inductive SelectMsg where
  | AppClose
  | SelectAlfaBlur
  | SelectBetaBlur
  | None
  deriving DecidableEq

/-- Component identifiers of select.rs. -/
inductive SelectId where
  | SelectAlfa
  | SelectBeta
  deriving DecidableEq

/-- `NoUserEvent` of tuirealm: select.rs declares no user events. -/
inductive NoUserEvent
  deriving DecidableEq

/-- Movement directions of `tuirealm::command::Direction`. -/
inductive MoveDirection where
  | Down
  | Up
  | Left
  | Right
  deriving DecidableEq

/-- Commands the select handlers perform on the inner widget. -/
inductive Cmd where
  | Move (d : MoveDirection)
  | Submit
  deriving DecidableEq

/-- Result of `Component::on` for the select components: the command (if
any) performed on the inner `Select` widget (whose implementation lives in
the tui-realm-stdlib library crate, outside src/) and the message
returned. -/
structure SelectOnResult where
  performed : Option Cmd
  msg : Option SelectMsg
  deriving DecidableEq

/-- `Component::on` of `SelectAlfa` (select.rs): Down, Up and Enter drive
the inner widget and yield `Some(Msg::None)`; Tab yields the blur message,
Esc yields close, everything else yields `Some(Msg::None)`. -/
def SelectAlfa.on : Event NoUserEvent → SelectOnResult
  | Event.Keyboard ⟨Key.Down, _⟩ =>
      { performed := some (Cmd.Move MoveDirection.Down), msg := some SelectMsg.None }
  | Event.Keyboard ⟨Key.Up, _⟩ =>
      { performed := some (Cmd.Move MoveDirection.Up), msg := some SelectMsg.None }
  | Event.Keyboard ⟨Key.Enter, _⟩ =>
      { performed := some Cmd.Submit, msg := some SelectMsg.None }
  | Event.Keyboard ⟨Key.Tab, _⟩ =>
      { performed := none, msg := some SelectMsg.SelectAlfaBlur }
  | Event.Keyboard ⟨Key.Esc, _⟩ =>
      { performed := none, msg := some SelectMsg.AppClose }
  | _ => { performed := none, msg := some SelectMsg.None }

/-- `Component::on` of `SelectBeta` (select.rs); identical to
`SelectAlfa::on` except that Tab yields `Msg::SelectBetaBlur`. -/
def SelectBeta.on : Event NoUserEvent → SelectOnResult
  | Event.Keyboard ⟨Key.Down, _⟩ =>
      { performed := some (Cmd.Move MoveDirection.Down), msg := some SelectMsg.None }
  | Event.Keyboard ⟨Key.Up, _⟩ =>
      { performed := some (Cmd.Move MoveDirection.Up), msg := some SelectMsg.None }
  | Event.Keyboard ⟨Key.Enter, _⟩ =>
      { performed := some Cmd.Submit, msg := some SelectMsg.None }
  | Event.Keyboard ⟨Key.Tab, _⟩ =>
      { performed := none, msg := some SelectMsg.SelectBetaBlur }
  | Event.Keyboard ⟨Key.Esc, _⟩ =>
      { performed := none, msg := some SelectMsg.AppClose }
  | _ => { performed := none, msg := some SelectMsg.None }

/-- One frame draw of `Model::view` of select.rs: layout margin, constraint
heights, and the components drawn into the chunks. -/
structure SelectRender where
  margin : Nat
  constraints : List Nat
  drawn : List SelectId
  deriving DecidableEq

/-- Height chosen by `Model::view` of select.rs for one select widget: 3
when `app.state` for it returns `State::One` (a choice was submitted), 8
otherwise. -/
def selectViewLen (stateIsOne : Bool) : Nat := if stateIsOne then 3 else 8

/-- `Model::view` of select.rs: vertical layout of margin 1 with constraints
Length alfa-height, Length beta-height, Length 1; `SelectAlfa` drawn in
chunk 0, `SelectBeta` in chunk 1, final 1-line chunk left as a spacer.
`app.state` is a framework query; whether each widget's state is
`State::One` is taken as input. -/
def selectView (alfaOne betaOne : Bool) : SelectRender :=
  { margin := 1
    constraints := [selectViewLen alfaOne, selectViewLen betaOne, 1]
    drawn := [SelectId.SelectAlfa, SelectId.SelectBeta] }

/-! Helper lemmas about the embedded operations. -/

/-- On a view with both gauges mounted, `Model::update` always succeeds, returns
no follow-up message, sets quit exactly on AppClose, never touches redraw,
preserves the mounted list and keeps some component focused. -/
lemma update_spec (m : Model) (v : AppView) (msg : Option Msg) (hv : v.mounted = mountedIds) :
    ∃ v', Model.update m v msg = Except.ok
        ({ quit := m.quit || decide (msg.getD Msg.None = Msg.AppClose), redraw := m.redraw }, v', none) ∧
      v'.mounted = v.mounted ∧ (v.focus.isSome = true → v'.focus.isSome = true) := by
  match msg with
  | none => exact ⟨v, by simp [Model.update], rfl, fun h => h⟩
  | some Msg.None => exact ⟨v, by simp [Model.update], rfl, fun h => h⟩
  | some Msg.AppClose => exact ⟨v, by simp [Model.update], rfl, fun h => h⟩
  | some Msg.GaugeAlfaBlur =>
      refine ⟨{ v with focus := some Id.GaugeBeta }, ?_, rfl, fun _ => rfl⟩
      simp [Model.update, AppView.active, hv, mountedIds, Except.map]
  | some Msg.GaugeBetaBlur =>
      refine ⟨{ v with focus := some Id.GaugeAlfa }, ?_, rfl, fun _ => rfl⟩
      simp [Model.update, AppView.active, hv, mountedIds, Except.map]

/-- Frame conditions of `Model::update` that need no mounting assumption:
whenever it returns at all, the follow-up message is `None`, redraw is
untouched, quit is set exactly on AppClose and the model is unchanged on
every other message. -/
lemma update_frame_core (m : Model) (v : AppView) (msg : Option Msg) (m' : Model) (v' : AppView)
    (r : Option Msg) (h : Model.update m v msg = Except.ok (m', v', r)) :
    r = none ∧ m'.redraw = m.redraw ∧
      (m'.quit = true ↔ (m.quit = true ∨ msg = some Msg.AppClose)) ∧
      (msg ≠ some Msg.AppClose → m' = m) := by
  have hmsg : msg = none ∨ msg = some Msg.AppClose ∨ msg = some Msg.GaugeAlfaBlur ∨
      msg = some Msg.GaugeBetaBlur ∨ msg = some Msg.None := by
    rcases msg with _ | mm
    · exact Or.inl rfl
    · cases mm
      · exact Or.inr (Or.inl rfl)
      · exact Or.inr (Or.inr (Or.inl rfl))
      · exact Or.inr (Or.inr (Or.inr (Or.inl rfl)))
      · exact Or.inr (Or.inr (Or.inr (Or.inr rfl)))
  rcases hmsg with hm | hm | hm | hm | hm <;> subst hm
  · simp [Model.update] at h
    obtain ⟨h1, h2, h3⟩ := h
    subst h1; subst h2; subst h3
    simp
  · simp [Model.update] at h
    obtain ⟨h1, h2, h3⟩ := h
    subst h1; subst h2; subst h3
    simp
  · cases hact : AppView.active v Id.GaugeBeta with
    | ok vv =>
        simp [Model.update, hact, Except.map] at h
        obtain ⟨h1, h2, h3⟩ := h
        subst h1; subst h2; subst h3
        simp
    | error e =>
        simp [Model.update, hact, Except.map] at h
  · cases hact : AppView.active v Id.GaugeAlfa with
    | ok vv =>
        simp [Model.update, hact, Except.map] at h
        obtain ⟨h1, h2, h3⟩ := h
        subst h1; subst h2; subst h3
        simp
    | error e =>
        simp [Model.update, hact, Except.map] at h
  · simp [Model.update] at h
    obtain ⟨h1, h2, h3⟩ := h
    subst h1; subst h2; subst h3
    simp

/-- Processing a batch of messages on a fully mounted view succeeds, keeps the
mounted list and the redraw flag, keeps some component focused, and sets quit
iff the batch contains AppClose (or quit was already set). -/
lemma tickProcess_spec (msgs : List Msg) (s : AppState) (hv : s.view.mounted = mountedIds) :
    ∃ s', tickProcess s msgs = Except.ok s' ∧
      s'.view.mounted = mountedIds ∧
      s'.model.redraw = s.model.redraw ∧
      (s'.model.quit = true ↔ (s.model.quit = true ∨ Msg.AppClose ∈ msgs)) ∧
      (s.view.focus.isSome = true → s'.view.focus.isSome = true) := by
  induction msgs generalizing s with
  | nil => exact ⟨s, rfl, hv, rfl, by simp, fun h => h⟩
  | cons msg rest ih =>
    obtain ⟨v', hup, hm, hf⟩ := update_spec s.model s.view (some msg) hv
    have hstep : tickProcess s (msg :: rest) =
        tickProcess ⟨⟨s.model.quit || decide (msg = Msg.AppClose), s.model.redraw⟩, v'⟩ rest := by
      simp [tickProcess, hup]
    obtain ⟨s', h1, h2, h3, h4, h5⟩ :=
      ih ⟨⟨s.model.quit || decide (msg = Msg.AppClose), s.model.redraw⟩, v'⟩ (by simpa [hm] using hv)
    refine ⟨s', hstep ▸ h1, h2, h3, ?_, fun hfoc => h5 (hf hfoc)⟩
    rw [h4]
    simp only [List.mem_cons, Bool.or_eq_true, decide_eq_true_eq]
    tauto

/-- One loop iteration on a fully mounted state: it succeeds, ends with the
redraw flag clear, sets quit exactly when the tick delivered AppClose, and
emits exactly one `Model::view` draw iff the tick processed a message or a
redraw was already pending. -/
lemma loopStep_spec (s : AppState) (t : TickOutcome) (hv : s.view.mounted = mountedIds) :
    ∃ s' effs, loopStep s t = Except.ok (s', effs) ∧
      s'.view.mounted = mountedIds ∧
      (s.view.focus.isSome = true → s'.view.focus.isSome = true) ∧
      s'.model.redraw = false ∧
      (s'.model.quit = true ↔ (s.model.quit = true ∨ tickCloses t)) ∧
      effs = (if 0 < msgCount t ∨ s.model.redraw = true then [Model.view] else []) := by
  cases t with
  | error e =>
    refine ⟨(renderPhase s).1, (renderPhase s).2, ?_, ?_, ?_, ?_, ?_, ?_⟩
    · simp [loopStep, pollPhase, Except.map]
    · by_cases h : s.model.redraw = true <;> simp [renderPhase, h, hv]
    · by_cases h : s.model.redraw = true <;> simp [renderPhase, h]
    · by_cases h : s.model.redraw = true <;> simp [renderPhase, h]
    · constructor
      · intro hq
        by_cases h : s.model.redraw = true <;> simp [renderPhase, h] at hq <;> exact Or.inl hq
      · rintro (hq | ⟨msgs, habs, _⟩)
        · by_cases h : s.model.redraw = true <;> simp [renderPhase, h] <;> exact hq
        · exact absurd habs (by simp)
    · by_cases h : s.model.redraw = true <;>
        simp [renderPhase, h, msgCount]
  | ok msgs =>
    by_cases hlen : 0 < msgs.length
    · obtain ⟨s1, h1, hv1, hrd1, hq1, hf1⟩ := tickProcess_spec msgs s hv
      refine ⟨⟨⟨s1.model.quit, false⟩, s1.view⟩, [Model.view], ?_, hv1, hf1, rfl, ?_, ?_⟩
      · simp [loopStep, pollPhase, h1, Except.map, hlen, renderPhase]
      · rw [hq1]
        constructor
        · rintro (h | h)
          · exact Or.inl h
          · exact Or.inr ⟨msgs, rfl, h⟩
        · rintro (h | ⟨ms, hms, hmem⟩)
          · exact Or.inl h
          · cases hms
            exact Or.inr hmem
      · simp [msgCount, hlen]
    · have hnil : msgs = [] := List.length_eq_zero.mp (by omega)
      subst hnil
      refine ⟨(renderPhase s).1, (renderPhase s).2, ?_, ?_, ?_, ?_, ?_, ?_⟩
      · simp [loopStep, pollPhase, tickProcess, Except.map]
      · by_cases h : s.model.redraw = true <;> simp [renderPhase, h, hv]
      · by_cases h : s.model.redraw = true <;> simp [renderPhase, h]
      · by_cases h : s.model.redraw = true <;> simp [renderPhase, h]
      · constructor
        · intro hq
          by_cases h : s.model.redraw = true <;> simp [renderPhase, h] at hq <;> exact Or.inl hq
        · rintro (hq | ⟨ms, hok, hmem⟩)
          · by_cases h : s.model.redraw = true <;> simp [renderPhase, h] <;> exact hq
          · cases hok
            simp at hmem
      · by_cases h : s.model.redraw = true <;>
          simp [renderPhase, h, msgCount]

/-- Invariants of the loop trace: every reachable boundary state is defined,
fully mounted, has a focused component, has the redraw flag clear from the
second boundary on, and has quit set iff some earlier tick closed. -/
lemma stateAfter_spec (t : Nat → TickOutcome) (n : Nat) :
    ∃ s, stateAfter t n = Except.ok s ∧ s.view.mounted = mountedIds ∧
      s.view.focus.isSome = true ∧ (1 ≤ n → s.model.redraw = false) ∧
      (s.model.quit = true ↔ ∃ k, k < n ∧ tickCloses (t k)) := by
  induction n with
  | zero =>
    refine ⟨initAppState, rfl, rfl, rfl, by omega, ?_⟩
    simp [initAppState, Model.default]
  | succ n ih =>
    obtain ⟨s, hs, hv, hfoc, hrd, hq⟩ := ih
    by_cases hquit : s.model.quit = true
    · refine ⟨s, ?_, hv, hfoc, fun _ => ?_, ?_⟩
      · simp [stateAfter, Except.bind, hs, hquit]
      · have hn : 1 ≤ n := by
          rcases hq.mp hquit with ⟨k, hk, _⟩
          omega
        exact hrd hn
      · rw [hquit] at hq ⊢
        constructor
        · intro _
          obtain ⟨k, hk, hc⟩ := hq.mp rfl
          exact ⟨k, by omega, hc⟩
        · intro _
          rfl
    · obtain ⟨s', effs, hstep, hv', hfoc', hrd', hq', _⟩ := loopStep_spec s (t n) hv
      refine ⟨s', ?_, hv', hfoc' hfoc, fun _ => hrd', ?_⟩
      · simp [stateAfter, Except.bind, hs, hquit, hstep, Except.map]
      · rw [hq']
        constructor
        · rintro (hc | hc)
          · exact absurd hc hquit
          · exact ⟨n, by omega, hc⟩
        · rintro ⟨k, hk, hc⟩
          by_cases hkn : k = n
          · exact Or.inr (hkn ▸ hc)
          · exact absurd (hq.mpr ⟨k, by omega, hc⟩) hquit

/-- A loop started with quit already set exits immediately. -/
lemma runLoop_quit (ts : List TickOutcome) (s : AppState) (hq : s.model.quit = true) :
    runLoop ts s = Except.ok (s, [], 0, true) := by
  cases ts <;> simp [runLoop, hq]

/-- Running the loop over close-free ticks followed by a closing tick executes
exactly one iteration per tick up to and including the closing one, exits,
and emits only `Model::view` draws. -/
lemma runLoop_pre_close (pre : List TickOutcome) (msgs : List Msg) (post : List TickOutcome)
    (s : AppState) (hv : s.view.mounted = mountedIds) (hq : s.model.quit = false)
    (hpre : ∀ tk ∈ pre, ¬ tickCloses tk) (hc : Msg.AppClose ∈ msgs) :
    ∃ s' effs, runLoop (pre ++ Except.ok msgs :: post) s =
        Except.ok (s', effs, pre.length + 1, true) ∧
      ∀ e ∈ effs, e = Model.view := by
  induction pre generalizing s with
  | nil =>
    obtain ⟨s1, effs1, hstep, hv1, hfoc1, hrd1, hq1, heffs1⟩ := loopStep_spec s (Except.ok msgs) hv
    have hq1' : s1.model.quit = true := hq1.mpr (Or.inr ⟨msgs, rfl, hc⟩)
    refine ⟨s1, effs1, ?_, ?_⟩
    · simp only [List.nil_append]
      rw [runLoop]
      simp [hq, hstep, Except.bind, runLoop_quit post s1 hq1', Except.map]
    · intro e he
      rw [heffs1] at he
      by_cases h : 0 < msgCount (Except.ok msgs) ∨ s.model.redraw = true <;> simp [h] at he
      · exact he
  | cons tk rest ih =>
    obtain ⟨s1, effs1, hstep, hv1, hfoc1, hrd1, hq1, heffs1⟩ := loopStep_spec s tk hv
    have hq1' : s1.model.quit = false := by
      rcases Bool.eq_false_or_eq_true s1.model.quit with h | h
      swap
      · exact h
      · rcases hq1.mp h with hqq | hcl
        · rw [hq] at hqq
          exact absurd hqq (by simp)
        · exact absurd hcl (hpre tk (by simp))
    obtain ⟨s2, effs2, hrun, heffs2⟩ :=
      ih s1 hv1 hq1' (fun x hx => hpre x (List.mem_cons_of_mem tk hx))
    refine ⟨s2, effs1 ++ effs2, ?_, ?_⟩
    · simp only [List.cons_append]
      rw [runLoop]
      simp [hq, hstep, Except.bind, hrun, Except.map, List.length_cons]
    · intro e he
      rcases List.mem_append.mp he with h | h
      · rw [heffs1] at h
        by_cases hcond : 0 < msgCount tk ∨ s.model.redraw = true <;> simp [hcond] at h
        · exact h
      · exact heffs2 e h

/-- Quit and redraw behaviour of message processing without any mounting
assumption. -/
lemma tickProcess_frame (msgs : List Msg) (s s' : AppState)
    (h : tickProcess s msgs = Except.ok s') :
    (s'.model.quit = true ↔ (s.model.quit = true ∨ Msg.AppClose ∈ msgs)) ∧
      s'.model.redraw = s.model.redraw := by
  induction msgs generalizing s with
  | nil =>
    simp [tickProcess] at h
    subst h
    simp
  | cons msg rest ih =>
    rw [tickProcess] at h
    cases hup : Model.update s.model s.view (some msg) with
    | error e => rw [hup] at h; exact absurd h (by simp)
    | ok trip =>
      obtain ⟨m1, v1, r1⟩ := trip
      rw [hup] at h
      obtain ⟨hr, hrd, hq, _⟩ := update_frame_core s.model s.view (some msg) m1 v1 r1 hup
      obtain ⟨ihq, ihrd⟩ := ih ⟨m1, v1⟩ h
      constructor
      · rw [ihq]
        simp only [hq]
        simp only [List.mem_cons]
        constructor
        · rintro ((hh | hh) | hh)
          · exact Or.inl hh
          · injection hh with hh
            exact Or.inr (Or.inl hh.symm)
          · exact Or.inr (Or.inr hh)
        · rintro (hh | hh | hh)
          · exact Or.inl (Or.inl hh)
          · exact Or.inl (Or.inr (by rw [hh]))
          · exact Or.inr hh
      · rw [ihrd, hrd]

/-- Quit and redraw behaviour of one loop iteration without any mounting
assumption: quit is set exactly when the tick closed, and every iteration
ends with the redraw flag clear. -/
lemma loopStep_frame (s : AppState) (tk : TickOutcome) (s' : AppState) (effs : List Effect)
    (h : loopStep s tk = Except.ok (s', effs)) :
    (s'.model.quit = true ↔ (s.model.quit = true ∨ tickCloses tk)) ∧
      s'.model.redraw = false := by
  cases tk with
  | error e =>
    have : renderPhase s = (s', effs) := by
      simpa [loopStep, pollPhase, Except.map] using h
    have hs' : s' = (renderPhase s).1 := by rw [this]
    subst hs'
    refine ⟨?_, ?_⟩
    · rw [show tickCloses (Except.error e : TickOutcome) ↔ False by
        simp [tickCloses]]
      by_cases hrd : s.model.redraw = true <;> simp [renderPhase, hrd]
    · by_cases hrd : s.model.redraw = true <;> simp [renderPhase, hrd]
  | ok msgs =>
    rw [loopStep, pollPhase] at h
    cases htp : tickProcess s msgs with
    | error e => rw [htp] at h; exact absurd h (by simp [Except.map])
    | ok s1 =>
      rw [htp] at h
      obtain ⟨hq1, hrd1⟩ := tickProcess_frame msgs s s1 htp
      have hcl : tickCloses (Except.ok msgs : TickOutcome) ↔ Msg.AppClose ∈ msgs := by
        constructor
        · rintro ⟨ms, hok, hm⟩
          cases hok
          exact hm
        · intro hm
          exact ⟨msgs, rfl, hm⟩
      by_cases hlen : 0 < msgs.length
      · simp only [Except.map, hlen, if_pos] at h
        have h' : renderPhase { s1 with model := { s1.model with redraw := true } } = (s', effs) := by
          simpa [hlen] using h
        have hs' : s' = (renderPhase { s1 with model := { s1.model with redraw := true } }).1 := by
          rw [h']
        subst hs'
        constructor
        · rw [hcl, ← hq1]
          simp [renderPhase]
        · simp [renderPhase]
      · have hnil : msgs = [] := List.length_eq_zero.mp (by omega)
        subst hnil
        have h' : renderPhase s1 = (s', effs) := by
          simpa [Except.map] using h
        have hs' : s' = (renderPhase s1).1 := by rw [h']
        subst hs'
        constructor
        · rw [hcl, ← hq1]
          by_cases hrd : s1.model.redraw = true <;> simp [renderPhase, hrd]
        · by_cases hrd : s1.model.redraw = true <;> simp [renderPhase, hrd]

/-! Claim theorems. -/

/-- C1 (amended): a render (a `Model::view` draw) occurs on a loop iteration
iff at least one message was processed during that tick or the redraw flag
was already pending at the start of the iteration; the pending-flag case
happens exactly on the first iteration, because `Model::default` initializes
redraw to true and every iteration ends with the flag clear. -/
theorem render_iff_message_or_initial (t : Nat → TickOutcome) (n : Nat) (s s' : AppState)
    (effs : List Effect) (hs : stateAfter t n = Except.ok s)
    (hstep : loopStep s (t n) = Except.ok (s', effs)) :
    (Model.view ∈ effs ↔ (0 < msgCount (t n) ∨ s.model.redraw = true)) ∧
    (1 ≤ n → s.model.redraw = false) ∧
    (n = 0 → s.model.redraw = true) := by
  obtain ⟨s0, hs0, hv0, _, hrd0, _⟩ := stateAfter_spec t n
  have hss : s = s0 := by
    rw [hs0] at hs
    injection hs with h
    exact h.symm
  subst hss
  obtain ⟨s1, effs1, hstep1, _, _, _, _, heffs1⟩ := loopStep_spec s (t n) hv0
  have heq : effs = effs1 := by
    rw [hstep1] at hstep
    injection hstep with h
    injection h with h1 h2
    exact h2.symm
  subst heq
  refine ⟨?_, hrd0, ?_⟩
  · rw [heffs1]
    by_cases hcond : 0 < msgCount (t n) ∨ s.model.redraw = true <;> simp [hcond]
  · intro hn
    subst hn
    have hinit : s = initAppState := by
      rw [show stateAfter t 0 = Except.ok initAppState from rfl] at hs
      injection hs with h
      exact h.symm
    rw [hinit]
    rfl

/-- C1 witness: the amended statement evaluated on the first iteration of a
stream whose first tick processes zero messages. -/
theorem render_iff_message_or_initial_witness :
    (Model.view ∈ [Model.view] ↔
      (0 < msgCount (Except.ok []) ∨ initAppState.model.redraw = true)) ∧
    (1 ≤ 0 → initAppState.model.redraw = false) ∧
    (0 = 0 → initAppState.model.redraw = true) := by
  exact render_iff_message_or_initial (fun _ => Except.ok []) 0 initAppState
    ⟨⟨false, false⟩, initAppState.view⟩ [Model.view] rfl rfl

/-- C1 counterexample to the claim as stated: on the very first iteration a
tick that processed zero messages still triggers a render, because redraw is
initialized true by `Model::default`. -/
theorem render_on_zero_message_tick :
    loopStep initAppState (Except.ok []) =
      Except.ok ({ model := { quit := false, redraw := false }, view := initAppState.view },
        [Model.view]) ∧
    msgCount (Except.ok []) = 0 := ⟨rfl, rfl⟩

/-- C2: for every stream of tick outcomes, the loop reaches a state with quit
set iff some tick eventually delivers `Msg::AppClose`; moreover once quit is
set at an iteration boundary the loop performs no further iteration (the
state is frozen). No other message, and no absence of messages, ever sets
quit. -/
theorem loop_terminates_iff_close (t : Nat → TickOutcome) :
    ((∃ n s, stateAfter t n = Except.ok s ∧ s.model.quit = true) ↔ (∃ n, tickCloses (t n))) ∧
    (∀ n s, stateAfter t n = Except.ok s → s.model.quit = true →
      stateAfter t (n + 1) = Except.ok s) := by
  constructor
  · constructor
    · rintro ⟨n, s, hs, hq⟩
      obtain ⟨s0, hs0, _, _, _, hqiff⟩ := stateAfter_spec t n
      rw [hs0] at hs
      injection hs with h
      subst h
      obtain ⟨k, _, hc⟩ := hqiff.mp hq
      exact ⟨k, hc⟩
    · rintro ⟨k, hc⟩
      obtain ⟨s, hs, _, _, _, hqiff⟩ := stateAfter_spec t (k + 1)
      exact ⟨k + 1, s, hs, hqiff.mpr ⟨k, by omega, hc⟩⟩
  · intro n s hs hq
    simp [stateAfter, Except.bind, hs, hq]

/-- C2 witness: after AppClose is processed in iteration 1 the boundary state
of iteration 2 is the frozen quit state. -/
theorem loop_terminates_iff_close_witness :
    stateAfter (fun _ => Except.ok [Msg.AppClose]) 2 =
      Except.ok ⟨⟨true, false⟩, initAppState.view⟩ := by
  exact (loop_terminates_iff_close (fun _ => Except.ok [Msg.AppClose])).2 1
    ⟨⟨true, false⟩, initAppState.view⟩ rfl rfl

/-- C3: the binary64 literal 0.73 (within half an ulp of 73/100, with a
53-bit significand) fed as a progress payload makes both gauge handlers set
the label "73%"; indeed `0.73 * 100.0` rounds to exactly 73.0, whose
truncation toward zero (`as usize`) is 73. -/
theorem gauge_label_of_073 :
    lit073.sig < 2 ^ 53 ∧
    |lit073.val - 73 / 100| < (2 : ℚ) ^ (-(54) : Int) ∧
    (GaugeAlfa.on gaugeDefault (Event.User (UserEvent.Loaded lit073))).1.text = "73%" ∧
    (GaugeBeta.on gaugeDefault (Event.User (UserEvent.Loaded lit073))).1.text = "73%" ∧
    lit073.mul lit100 = { sig := 5136918324969472, exp := -46 } ∧
    (lit073.mul lit100).val = 73 ∧
    PosF64.asUsize (lit073.mul lit100) = 73 := by
  refine ⟨by decide, ?_, by decide, by decide, by decide, ?_, by decide⟩
  · rw [lit073, PosF64.val]
    rw [abs_sub_lt_iff]
    norm_num
  · rw [show lit073.mul lit100 = { sig := 5136918324969472, exp := -46 } by decide]
    rw [PosF64.val]
    norm_num

/-- C4: once a tick delivers `Msg::AppClose`, the loop exits at the next
iteration boundary (exactly one iteration per preceding close-free tick plus
the closing one), and each terminal-restore operation (leave alternate
screen, disable raw mode, clear screen) is invoked exactly once, after all
loop effects. -/
theorem close_exits_and_restores (pre : List TickOutcome) (msgs : List Msg)
    (post : List TickOutcome) (hpre : ∀ tk ∈ pre, ¬ tickCloses tk)
    (hc : Msg.AppClose ∈ msgs) :
    ∃ effs core, mainRun (Except.ok ()) (pre ++ Except.ok msgs :: post) =
        Except.ok (effs, pre.length + 1, true) ∧
      effs = Effect.EnableRawMode :: Effect.EnterAltScreen :: core ++
        [Effect.LeaveAltScreen, Effect.DisableRawMode, Effect.ClearScreen] ∧
      (∀ e ∈ core, e = Model.view) ∧
      effs.count Effect.LeaveAltScreen = 1 ∧
      effs.count Effect.DisableRawMode = 1 ∧
      effs.count Effect.ClearScreen = 1 := by
  obtain ⟨s', core, hrun, hcore⟩ :=
    runLoop_pre_close pre msgs post initAppState rfl rfl hpre hc
  have hcount : ∀ x : Effect, x ≠ Model.view → core.count x = 0 := by
    intro x hx
    rw [List.count_eq_zero]
    intro hmem
    exact hx ((hcore x hmem) ▸ rfl)
  refine ⟨_, core, ?_, rfl, hcore, ?_, ?_, ?_⟩
  · rw [mainRun, hrun]
    simp [Except.map]
  · simp [List.count_cons, List.count_append, hcount Effect.LeaveAltScreen (by decide)]
  · simp [List.count_cons, List.count_append, hcount Effect.DisableRawMode (by decide)]
  · simp [List.count_cons, List.count_append, hcount Effect.ClearScreen (by decide)]

/-- C4 witness: a single closing tick exits after one iteration with each
restore effect exactly once. -/
theorem close_exits_and_restores_witness :
    ∃ effs core, mainRun (Except.ok ()) ([] ++ Except.ok [Msg.AppClose] :: []) =
        Except.ok (effs, List.length ([] : List TickOutcome) + 1, true) ∧
      effs = Effect.EnableRawMode :: Effect.EnterAltScreen :: core ++
        [Effect.LeaveAltScreen, Effect.DisableRawMode, Effect.ClearScreen] ∧
      (∀ e ∈ core, e = Model.view) ∧
      effs.count Effect.LeaveAltScreen = 1 ∧
      effs.count Effect.DisableRawMode = 1 ∧
      effs.count Effect.ClearScreen = 1 := by
  exact close_exits_and_restores [] [Msg.AppClose] [] (by simp) (by simp)

/-- C5 (spec-modelled focus transfer): a blur message processed on a view
with both gauges mounted moves focus to exactly the other gauge; when
GaugeAlfa was focused, after GaugeAlfaBlur GaugeBeta is focused and GaugeAlfa
is not; and no update step ever leaves zero components focused. -/
theorem focus_transfer (m : Model) (v : AppView) (hv : v.mounted = mountedIds) :
    (∃ v', Model.update m v (some Msg.GaugeAlfaBlur) = Except.ok (m, v', none) ∧
      v'.focus = some Id.GaugeBeta ∧ v'.mounted = v.mounted) ∧
    (∃ v', Model.update m v (some Msg.GaugeBetaBlur) = Except.ok (m, v', none) ∧
      v'.focus = some Id.GaugeAlfa ∧ v'.mounted = v.mounted) ∧
    (v.focus = some Id.GaugeAlfa →
      ∃ v', Model.update m v (some Msg.GaugeAlfaBlur) = Except.ok (m, v', none) ∧
        v'.focus = some Id.GaugeBeta ∧ v'.focus ≠ v.focus) ∧
    (∀ msg m' v' r, v.focus.isSome = true →
      Model.update m v msg = Except.ok (m', v', r) → v'.focus.isSome = true) := by
  have halfa : Model.update m v (some Msg.GaugeAlfaBlur) =
      Except.ok (m, { v with focus := some Id.GaugeBeta }, none) := by
    simp [Model.update, AppView.active, hv, mountedIds, Except.map]
  have hbeta : Model.update m v (some Msg.GaugeBetaBlur) =
      Except.ok (m, { v with focus := some Id.GaugeAlfa }, none) := by
    simp [Model.update, AppView.active, hv, mountedIds, Except.map]
  refine ⟨⟨_, halfa, rfl, rfl⟩, ⟨_, hbeta, rfl, rfl⟩, ?_, ?_⟩
  · intro hf
    refine ⟨_, halfa, rfl, ?_⟩
    rw [hf]
    simp
  · intro msg m' v' r hf hup
    obtain ⟨v0, hup0, _, hf0⟩ := update_spec m v msg hv
    rw [hup0] at hup
    injection hup with h
    injection h with h1 h2
    injection h2 with h3 h4
    exact h3 ▸ hf0 hf

/-- C5 witness: the focus-transfer statement evaluated on the initial view
(GaugeAlfa focused, both mounted). -/
theorem focus_transfer_witness :
    ∃ v', Model.update Model.default initAppState.view (some Msg.GaugeAlfaBlur) =
        Except.ok (Model.default, v', none) ∧
      v'.focus = some Id.GaugeBeta ∧ v'.mounted = initAppState.view.mounted := by
  exact (focus_transfer Model.default initAppState.view rfl).1

/-- C6: a tick error is discarded: the poll phase returns the state unchanged
with zero messages, the iteration continues into the render phase with quit
untouched, while a terminal-acquisition failure at startup aborts the process
before the loop and before any terminal effect. -/
theorem poll_error_swallowed_setup_fatal :
    (∀ s e, pollPhase s (Except.error e) = Except.ok (s, 0)) ∧
    (∀ s e, loopStep s (Except.error e) = Except.ok (renderPhase s)) ∧
    (∀ s, (renderPhase s).1.model.quit = s.model.quit) ∧
    (∀ e ts, mainRun (Except.error e) ts = Except.error e) := by
  refine ⟨fun s e => rfl, fun s e => rfl, ?_, fun e ts => rfl⟩
  intro s
  by_cases h : s.model.redraw = true <;> simp [renderPhase, h]

/-- C7: whenever the redraw flag is pending, the render step draws all
visible components into a vertical layout of fixed-height regions whose
final region is a one-line spacer, and clears the pending flag; this holds
for the progress_bar layout (3, 3, 1) and for both select.rs layouts. -/
theorem pending_redraw_renders_fixed_layout :
    (∀ s, s.model.redraw = true →
      renderPhase s = ({ s with model := { s.model with redraw := false } }, [Model.view])) ∧
    Model.view = Effect.Render 1 [3, 3, 1] mountedIds ∧
    [3, 3, 1].getLast? = some 1 ∧
    (∀ a b : Bool, (selectView a b).constraints.getLast? = some 1 ∧
      (selectView a b).drawn = [SelectId.SelectAlfa, SelectId.SelectBeta] ∧
      (selectView a b).margin = 1) := by
  refine ⟨?_, rfl, rfl, ?_⟩
  · intro s h
    simp [renderPhase, h]
  · intro a b
    refine ⟨?_, rfl, rfl⟩
    cases a <;> cases b <;> rfl

/-- C7 witness: rendering the initial state (redraw pending) emits the draw
and clears the flag. -/
theorem pending_redraw_renders_witness :
    renderPhase initAppState =
      ({ initAppState with model := { initAppState.model with redraw := false } },
        [Model.view]) := by
  exact pending_redraw_renders_fixed_layout.1 initAppState rfl

/-- C8 (amended): the state is created with quit=false and redraw=true, and
quit is changed only by the update step (exactly when AppClose is
processed); the redraw flag, however, is also mutated by the main loop
itself, which sets it whenever a tick processes at least one message and
always leaves it clear after the render phase. -/
theorem lifecycle_amended :
    Model.default = { quit := false, redraw := true } ∧
    (∀ s tk s' effs, loopStep s tk = Except.ok (s', effs) →
      (s'.model.quit = true ↔ (s.model.quit = true ∨ tickCloses tk))) ∧
    (∀ s msgs s1 n, pollPhase s (Except.ok msgs) = Except.ok (s1, n) →
      s1.model.redraw = (s.model.redraw || decide (0 < msgs.length))) ∧
    (∀ s, (renderPhase s).1.model.redraw = false) := by
  refine ⟨rfl, ?_, ?_, ?_⟩
  · intro s tk s' effs h
    exact (loopStep_frame s tk s' effs h).1
  · intro s msgs s1 n h
    rw [pollPhase] at h
    cases htp : tickProcess s msgs with
    | error e => rw [htp] at h; exact absurd h (by simp [Except.map])
    | ok s2 =>
      rw [htp] at h
      obtain ⟨_, hrd2⟩ := tickProcess_frame msgs s s2 htp
      by_cases hlen : 0 < msgs.length
      · simp only [Except.map, gt_iff_lt, hlen, if_true, Except.ok.injEq, Prod.mk.injEq] at h
        rw [← h.1]
        simp [hlen]
      · simp only [Except.map, gt_iff_lt, hlen, if_false, Except.ok.injEq, Prod.mk.injEq] at h
        rw [← h.1, hrd2]
        simp [hlen]
  · intro s
    by_cases h : s.model.redraw = true <;> simp [renderPhase, h]

/-- C8 witness: the quit characterization evaluated on the first iteration
of an empty tick. -/
theorem lifecycle_amended_witness :
    (false : Bool) = true ↔
      (initAppState.model.quit = true ∨ tickCloses (Except.ok [])) := by
  exact lifecycle_amended.2.1 initAppState (Except.ok [])
    ⟨⟨false, false⟩, initAppState.view⟩ [Model.view] rfl

/-- C8 counterexample to the claim as stated: the loop's tick phase flips
redraw from false to true on a tick processing only `Msg::None`, although
the update call for that message leaves the model unchanged — so code
outside the update function does mutate the redraw flag. -/
theorem redraw_mutated_outside_update :
    pollPhase { model := { quit := false, redraw := false }, view := initAppState.view }
        (Except.ok [Msg.None]) =
      Except.ok ({ model := { quit := false, redraw := true }, view := initAppState.view }, 1) ∧
    Model.update { quit := false, redraw := false } initAppState.view (some Msg.None) =
      Except.ok ({ quit := false, redraw := false }, initAppState.view, none) := ⟨rfl, rfl⟩

/-- C9: for every event, each component's `Component::on` handler returns
`Some` message — unhandled events yield `Some(Msg::None)`, never `None`. -/
theorem component_on_always_some :
    (∀ st ev, ((GaugeAlfa.on st ev).2).isSome = true) ∧
    (∀ st ev, ((GaugeBeta.on st ev).2).isSome = true) ∧
    (∀ ev, (SelectAlfa.on ev).msg.isSome = true) ∧
    (∀ ev, (SelectBeta.on ev).msg.isSome = true) := by
  refine ⟨?_, ?_, ?_, ?_⟩
  · intro st ev
    cases ev with
    | Keyboard ke =>
      obtain ⟨c, mods⟩ := ke
      cases c <;> simp [GaugeAlfa.on]
    | User u =>
      obtain ⟨p⟩ := u
      simp [GaugeAlfa.on]
    | _ => simp [GaugeAlfa.on]
  · intro st ev
    cases ev with
    | Keyboard ke =>
      obtain ⟨c, mods⟩ := ke
      cases c <;> simp [GaugeBeta.on]
    | User u =>
      obtain ⟨p⟩ := u
      simp [GaugeBeta.on]
    | _ => simp [GaugeBeta.on]
  · intro ev
    cases ev with
    | Keyboard ke =>
      obtain ⟨c, mods⟩ := ke
      cases c <;> simp [SelectAlfa.on]
    | User u => cases u
    | _ => simp [SelectAlfa.on]
  · intro ev
    cases ev with
    | Keyboard ke =>
      obtain ⟨c, mods⟩ := ke
      cases c <;> simp [SelectBeta.on]
    | User u => cases u
    | _ => simp [SelectBeta.on]

/-- C10: `Model::update` never produces a follow-up message, leaves redraw
untouched, sets quit exactly when the message is AppClose, and leaves the
model fields unchanged for every other message (including `None`). -/
theorem update_returns_none_touches_only_quit (m : Model) (v : AppView) (msg : Option Msg)
    (m' : Model) (v' : AppView) (r : Option Msg)
    (h : Model.update m v msg = Except.ok (m', v', r)) :
    r = none ∧ m'.redraw = m.redraw ∧
      (m'.quit = true ↔ (m.quit = true ∨ msg = some Msg.AppClose)) ∧
      (msg ≠ some Msg.AppClose → m' = m) := by
  exact update_frame_core m v msg m' v' r h

/-- C10 witness: the update frame conditions evaluated at AppClose on the
default model. -/
theorem update_returns_none_witness :
    (none : Option Msg) = none ∧
    ({ quit := true, redraw := true } : Model).redraw = Model.default.redraw ∧
    (({ quit := true, redraw := true } : Model).quit = true ↔
      (Model.default.quit = true ∨ (some Msg.AppClose : Option Msg) = some Msg.AppClose)) ∧
    ((some Msg.AppClose : Option Msg) ≠ some Msg.AppClose →
      ({ quit := true, redraw := true } : Model) = Model.default) := by
  exact update_returns_none_touches_only_quit Model.default initAppState.view
    (some Msg.AppClose) { quit := true, redraw := true } initAppState.view none rfl

end TuiRealmDemo
